import Mathlib

/-!
Verification of the step-execution engine of the stagehand test-agent
repository against its natural-language specification.

The definitions below are shallow embeddings of the TypeScript source:

* `planWithSelfHealing` — the bounded self-healing retry loop of
  `TestAgent.planWithSelfHealing` (agents/TestAgent.ts, canonical snapshot).
  The effectful planner is modelled as a function receiving the attempt
  index (an oracle for its nondeterminism) and the current instruction
  text; the healing LLM call is modelled as a function from the attempt
  index and the error message to the alternative instruction.
* `verifyTableStep` — the table-driven branch of `TestAgent.verifyThenStep`.
* `selectCandidate` — the candidate filtering of `TestAgent.planWhenStep`.
* `verifyElementState` — the element-state branch of `TestAgent.verifyThenStep`.
* `planGivenStep` — the URL branch of `TestAgent.planGivenStep`.
* `getSafeTextFromResult` / `evalTextAssertion` — the text-assertion branch.
* `redact` / `shouldRedactKey` — the command-trace redaction of
  `TestOrchestrator.generateReport`.
* `fillFormFromTable` — the table-driven form filling of `formFiller.ts`.
* `ExecutionContext.resetForNewScenario` — core/ExecutionContext.ts.

JavaScript strings are modelled as Lean `String`; `String.prototype.includes`
is substring containment; JS-object fields that may be absent are `Option`;
a JS value that is truthy iff it is a non-empty string is tested against `""`.
Fallible operations return `Except String`.
-/

set_option maxRecDepth 8000

/-- JS `s.includes(pat)`: `pat` occurs as a contiguous substring of `s`
(true for the empty pattern). -/
def jsIncludes (s pat : String) : Bool :=
  decide (pat.toList <:+: s.toList)

/-- JS `s.toLowerCase()`, character by character (the strings the engine
compares are ASCII method names and keys). -/
def jsToLower (s : String) : String :=
  String.mk (s.toList.map Char.toLower)

/-- JS `s.startsWith(pre)`. -/
def jsStartsWith (s pre : String) : Bool :=
  pre.toList.isPrefixOf s.toList

/-! ### C1 — Self-Healing Controller (`TestAgent.planWithSelfHealing`) -/

/-- Outcome of the self-healing loop together with observability counters:
how many healing-LLM calls and how many planner invocations were made. -/
structure HealOutcome (P : Type) where
  result : Except String P
  healingCalls : Nat
  plannerCalls : Nat
  deriving Repr

/-- The fatal error message raised after the retry budget is exhausted
(source: the final `throw new Error(...)` of `planWithSelfHealing`). -/
def fatalHealMessage (originalText lastErrMsg : String) : String :=
  "ステップ「" ++ originalText ++
    "」の計画立案は2回の自己修復を試みましたが、最終的に失敗しました。最後の失敗理由: " ++
    lastErrMsg

/-- The `for (let i = 0; i <= 2; i++)` loop of `planWithSelfHealing`.
`planner i t` is the i-th invocation of the wrapped planning operation on
instruction text `t`; `healer i e` is the alternative instruction produced
by the healing-LLM call made after the i-th attempt failed with message `e`
(the prompt also receives the original step text, accessibility snapshot and
log ring buffers, which do not influence control flow). -/
def selfHealLoop {P : Type} (planner : Nat → String → Except String P)
    (healer : Nat → String → String) (originalText : String) :
    Nat → String → String → Nat → Nat → HealOutcome P
  | i, currentText, lastErr, hCalls, pCalls =>
    if _h : i > 2 then
      ⟨Except.error (fatalHealMessage originalText lastErr), hCalls, pCalls⟩
    else
      match planner i currentText with
      | Except.ok p => ⟨Except.ok p, hCalls, pCalls + 1⟩
      | Except.error e =>
        if i < 2 then
          selfHealLoop planner healer originalText (i + 1) (healer i e) e
            (hCalls + 1) (pCalls + 1)
        else
          selfHealLoop planner healer originalText (i + 1) currentText e
            hCalls (pCalls + 1)
  termination_by i _ _ _ _ => 3 - i

/-- `TestAgent.planWithSelfHealing`: run the planner on the original step
text, healing and retrying at most twice. -/
def planWithSelfHealing {P : Type} (planner : Nat → String → Except String P)
    (healer : Nat → String → String) (originalText : String) : HealOutcome P :=
  selfHealLoop planner healer originalText 0 originalText "" 0 0

/-! ### C9 — Execution Context (`core/ExecutionContext.ts`) -/

/-- The run mode of the execution context. -/
inductive ExecutionMode where
  | autonomous
  | interactive
  | interactiveAuto
  deriving DecidableEq, Repr

/-- `ExecutionContext`: run mode, scenario text, nullable structured
scenario, and the ordered step results.  The structured-scenario and
step-result payload types are opaque to the context, so they are type
parameters. -/
structure ExecutionContext (Doc Res : Type) where
  mode : ExecutionMode
  originalScenario : String
  gherkinDocument : Option Doc
  stepResults : List Res
  deriving Repr

/-- `ExecutionContext.resetForNewScenario`: install the new scenario text,
null out the structured scenario, clear the results. -/
def ExecutionContext.resetForNewScenario {Doc Res : Type}
    (ctx : ExecutionContext Doc Res) (newScenario : String) :
    ExecutionContext Doc Res :=
  { ctx with
    originalScenario := newScenario
    gherkinDocument := none
    stepResults := [] }

/-- `ExecutionContext.addResult`: append one step result. -/
def ExecutionContext.addResult {Doc Res : Type}
    (ctx : ExecutionContext Doc Res) (result : Res) :
    ExecutionContext Doc Res :=
  { ctx with stepResults := ctx.stepResults ++ [result] }

/-! ### C2 / C10 — Tabular verification (`TestAgent.verifyThenStep`, table branch)

A Gherkin table row, and an extracted row, are ordered key/value mappings
(`Object.entries` order).  Values of extracted rows are strings (the zod
row schema maps every key to `z.string()`), but a key asked for by an
expected row may be absent from an extracted row. -/

/-- An ordered string-to-string mapping (a JS object of string fields). -/
abbrev TableRow := List (String × String)

/-- JS `row[key]`: the value at `key`, or `none` when the field is absent. -/
def lookupField (row : TableRow) (key : String) : Option String :=
  (row.find? (fun kv => kv.1 == key)).map (fun kv => kv.2)

/-- One conjunct of the row-matching `every`:
`actualRow[key] && actualRow[key].toString().includes(value.toString())`.
An absent field is `undefined` (falsy) and the empty string is falsy. -/
def entryMatches (actualRow : TableRow) (kv : String × String) : Bool :=
  match lookupField actualRow kv.1 with
  | some v => (v != "") && jsIncludes v kv.2
  | none => false

/-- `extractedData.some((actualRow) => Object.entries(expectedRow).every(...))`. -/
def rowFoundIn (extractedData : List TableRow) (expectedRow : TableRow) : Bool :=
  extractedData.any (fun actualRow => expectedRow.all (entryMatches actualRow))

/-- The table branch of `verifyThenStep`: fail on zero extracted rows, then
require every expected row to match some extracted row. -/
def verifyTableStep (expected extractedData : List TableRow) : Bool :=
  if extractedData.isEmpty then false
  else expected.all (rowFoundIn extractedData)

/-- The matching predicate in the words of the specification sentence
(C2): every expected column value is a substring of the extracted column
value at the same key — with no truthiness requirement on the extracted
value.  Used only to compare the spec's wording with `verifyTableStep`. -/
def specTableMatch (expected extractedData : List TableRow) : Prop :=
  extractedData ≠ [] ∧
    ∀ er ∈ expected, ∃ ar ∈ extractedData,
      ∀ kv ∈ er, ∃ v, lookupField ar kv.1 = some v ∧ kv.2.toList <:+: v.toList

/-! ### C3 — Action Planner candidate filtering (`TestAgent.planWhenStep`) -/

/-- `intendedAction` as produced by the executor schema
(`z.enum([...])` in prompts/executor.ts). -/
inductive ActionIntent where
  | click
  | double_click
  | fill
  | press
  | select
  | hover
  | scroll
  | drag
  | unknown
  deriving DecidableEq, Repr

/-- The string value of the enum tag (used in the intent-mismatch message). -/
def ActionIntent.render : ActionIntent → String
  | .click => "click"
  | .double_click => "double_click"
  | .fill => "fill"
  | .press => "press"
  | .select => "select"
  | .hover => "hover"
  | .scroll => "scroll"
  | .drag => "drag"
  | .unknown => "unknown"

/-- A Stagehand `ObserveResult`: an opaque candidate action.  The engine
inspects only the method name and (for verification) the selector/xpath;
each field may be absent. -/
structure ObserveResult where
  method : Option String
  selector : Option String
  xpath : Option String
  deriving DecidableEq, Repr

/-- `SCROLL_METHODS` of `planWhenStep`. -/
def SCROLL_METHODS : List String :=
  ["scroll", "scrollto", "scrollintoview", "scrollbypixeloffset",
   "mouse.wheel", "nextchunk", "prevchunk"]

/-- The `switch (intendedAction)` of the filter closure, on a lower-cased
method name. -/
def methodMatchesIntent (intendedAction : ActionIntent) (m : String) : Bool :=
  match intendedAction with
  | .click => m == "click"
  | .double_click => m == "doubleclick" || m == "dblclick"
  | .fill => m == "fill" || m == "type"
  | .press => m == "press"
  | .select => jsIncludes m "select"
  | .hover => m == "hover"
  | .scroll => SCROLL_METHODS.contains m
  | .drag => m == "draganddrop"
  | .unknown => false

/-- The filter closure of `planWhenStep`:
`const method = obsResult.method?.toLowerCase(); if (!method) return false;`
then the intent switch. -/
def observeFilterPred (intendedAction : ActionIntent) (o : ObserveResult) : Bool :=
  match o.method with
  | none => false
  | some raw =>
    let m := jsToLower raw
    if m == "" then false else methodMatchesIntent intendedAction m

/-- The element-not-found error message of `planWhenStep`. -/
def elementNotFoundMessage (observeInstruction : String) : String :=
  "要素が見つかりませんでした: \"" ++ observeInstruction ++ "\""

/-- The intent-mismatch error message of `planWhenStep`. -/
def intentMismatchMessage (intendedAction : ActionIntent) : String :=
  "AIの意図「" ++ intendedAction.render ++ "」に一致する要素が見つかりませんでした。"

/-- The candidate-selection tail of `planWhenStep` (after `page.observe`
returned `observed`): throw on zero candidates; filter by intent only when
the intent is known and more than one candidate exists; throw when the
filter leaves nothing; otherwise return the first (surviving) candidate. -/
def selectCandidate (observeInstruction : String)
    (intendedAction : ActionIntent) (observed : List ObserveResult) :
    Except String ObserveResult :=
  match observed with
  | [] => Except.error (elementNotFoundMessage observeInstruction)
  | first :: rest =>
    if intendedAction != ActionIntent.unknown && (first :: rest).length > 1 then
      match (first :: rest).filter (observeFilterPred intendedAction) with
      | f :: _ => Except.ok f
      | [] => Except.error (intentMismatchMessage intendedAction)
    else
      Except.ok first

/-! ### C4 — Element-state verification (`TestAgent.verifyThenStep`,
`element_state` branch) -/

/-- The state-check kinds of the verifier schema. -/
inductive CheckKind where
  | exists_
  | not_exists
  | visible
  | hidden
  | enabled
  | disabled
  | checked
  | unchecked
  | value_equals
  deriving DecidableEq, Repr

/-- The outcomes of the Playwright locator probes on the resolved selector;
each probe either returns its value or throws. -/
structure LocatorProbe where
  count : Except String Nat
  isVisible : Except String Bool
  isHidden : Except String Bool
  isEnabled : Except String Bool
  isDisabled : Except String Bool
  isChecked : Except String Bool
  inputValue : Except String String
  deriving Repr

/-- The `try { switch (plan.assertion.check) ... } catch { return false }` of
the element-state branch: each check consults its probe and any thrown
probe error yields `false`. -/
def runStateCheck (check : CheckKind) (expectedValue : Option String)
    (probe : LocatorProbe) : Bool :=
  match check with
  | .exists_ =>
    match probe.count with
    | Except.ok n => decide (n > 0)
    | Except.error _ => false
  | .not_exists =>
    match probe.count with
    | Except.ok n => decide (n = 0)
    | Except.error _ => false
  | .visible =>
    match probe.isVisible with
    | Except.ok b => b
    | Except.error _ => false
  | .hidden =>
    match probe.isHidden with
    | Except.ok b => b
    | Except.error _ => false
  | .enabled =>
    match probe.isEnabled with
    | Except.ok b => b
    | Except.error _ => false
  | .disabled =>
    match probe.isDisabled with
    | Except.ok b => b
    | Except.error _ => false
  | .checked =>
    match probe.isChecked with
    | Except.ok b => b
    | Except.error _ => false
  | .unchecked =>
    match probe.isChecked with
    | Except.ok b => !b
    | Except.error _ => false
  | .value_equals =>
    match probe.inputValue with
    | Except.ok v =>
      match expectedValue with
      | some ev => v == ev
      | none => false
    | Except.error _ => false

/-- `target.selector || (target.xpath ? "xpath=" + target.xpath : null)`
(an absent or empty field is falsy). -/
def resolveSelector (target : ObserveResult) : Option String :=
  let fromXpath : Option String :=
    match target.xpath with
    | some x => if x == "" then none else some ("xpath=" ++ x)
    | none => none
  match target.selector with
  | some s => if s == "" then fromXpath else some s
  | none => fromXpath

/-- The whole `element_state` branch of `verifyThenStep`: on zero observed
candidates only `not_exists` passes; otherwise resolve a selector from the
first candidate (failing to `false`) and run the probed check. -/
def verifyElementState (check : CheckKind) (expectedValue : Option String)
    (observed : List ObserveResult) (probe : LocatorProbe) : Bool :=
  match observed with
  | [] => check == CheckKind.not_exists
  | target :: _ =>
    match resolveSelector target with
    | none => false
    | some _ => runStateCheck check expectedValue probe

/-! ### C5 — Precondition step with URL (`TestAgent.planGivenStep`) -/

/-- A character allowed in the body of the URL literal: the regex character
class excludes whitespace, double quote, backtick, angle brackets, and
parentheses.  The backtick is written by code point to keep the source
plain. -/
def urlBodyCharOk (c : Char) : Bool :=
  !(c.isWhitespace || c == '"' || c == Char.ofNat 96 || c == '<' ||
    c == '>' || c == '(' || c == ')')

/-- Try to match the URL regex at the start of `cs`: a literal scheme
followed by one or more allowed characters (greedy). -/
def matchUrlAt (cs : List Char) : Option String :=
  if cs.take 8 = "https://".toList then
    let body := (cs.drop 8).takeWhile urlBodyCharOk
    if body = [] then none else some (String.mk ("https://".toList ++ body))
  else if cs.take 7 = "http://".toList then
    let body := (cs.drop 7).takeWhile urlBodyCharOk
    if body = [] then none else some (String.mk ("http://".toList ++ body))
  else none

/-- Leftmost match of the URL regex, as `step.text.match(...)` returns it. -/
def findFirstUrl : List Char → Option String
  | [] => none
  | c :: rest =>
    match matchUrlAt (c :: rest) with
    | some u => some u
    | none => findFirstUrl rest

/-- What a Given step did. -/
inductive GivenOutcome where
  | navigated
  | delegated
  | failed (msg : String)
  deriving DecidableEq, Repr

/-- The precondition-verification error message of `planGivenStep`. -/
def preconditionFailedMessage (expectedUrl currentUrl : String) : String :=
  "前提条件の検証に失敗: URLへの遷移に失敗しました。\n  期待値 (前方一致): " ++
    expectedUrl ++ "\n  実際値: " ++ currentUrl

/-- `TestAgent.planGivenStep`: when the step text contains a URL literal,
navigate there (`nav` maps the requested URL to the resulting page
location) and verify prefix match against a non-blank location; otherwise
delegate to the When-planning path.  The second component counts the
navigation calls performed. -/
def planGivenStep (text : String) (nav : String → String) : GivenOutcome × Nat :=
  match findFirstUrl text.toList with
  | some expectedUrl =>
    let currentUrl := nav expectedUrl
    if currentUrl == "about:blank" || !(jsStartsWith currentUrl expectedUrl) then
      (GivenOutcome.failed (preconditionFailedMessage expectedUrl currentUrl), 1)
    else
      (GivenOutcome.navigated, 1)
  | none => (GivenOutcome.delegated, 0)

/-! ### C6 — Text-assertion verification (`getSafeTextFromResult` and the
text branch of `TestAgent.verifyThenStep`) -/

/-- A JS value as far as the normalizer observes it: a string, or anything
whose `typeof` is not `"string"`. -/
inductive JsValue where
  | str (s : String)
  | nonString
  deriving DecidableEq, Repr

/-- The polymorphic extraction result: each named field may be absent. -/
structure RawExtractResult where
  extraction : Option JsValue
  page_text : Option JsValue
  deriving DecidableEq, Repr

/-- `getSafeTextFromResult`: prefer a string `extraction` field, fall back
to a string `page_text` field, else the empty string. -/
def getSafeTextFromResult (r : RawExtractResult) : String :=
  match r.extraction with
  | some (JsValue.str s) => s
  | _ =>
    match r.page_text with
    | some (JsValue.str s) => s
    | _ => ""

/-- The text operators of the verifier schema. -/
inductive TextOperator where
  | toContain
  | notToContain
  | toEqual
  deriving DecidableEq, Repr

/-- The `switch (plan.assertion.operator)` of the text branch of
`verifyThenStep`, applied to the normalized extraction result. -/
def evalTextAssertion (op : TextOperator) (expected : String)
    (r : RawExtractResult) : Bool :=
  let actual := getSafeTextFromResult r
  match op with
  | .toContain => jsIncludes actual expected
  | .notToContain => !(jsIncludes actual expected)
  | .toEqual => actual == expected

/-! ### C7 — Command-trace redaction (`TestOrchestrator.generateReport`) -/

/-- A JSON-like value: the shape of a persisted command-trace record. -/
inductive Json where
  | str (s : String)
  | num (n : Int)
  | jbool (b : Bool)
  | jnull
  | arr (elems : List Json)
  | obj (fields : List (String × Json))
  deriving Repr

/-- Step 1 of `normalizeKey`: `key.replace(/([a-z0-9])([A-Z])/g, "$1_$2")`
— insert an underscore between a lowercase-or-digit character and an
uppercase character, resuming the scan after each replaced pair. -/
def camelSplit : List Char → List Char
  | [] => []
  | [c] => [c]
  | a :: b :: rest =>
    if (a.isLower || a.isDigit) && b.isUpper then
      a :: '_' :: b :: camelSplit rest
    else
      a :: camelSplit (b :: rest)

/-- A separator for step 2 of `normalizeKey` (`/[\s-]+/`). -/
def wsOrDash (c : Char) : Bool :=
  c.isWhitespace || c == '-'

/-- Step 2 of `normalizeKey`: replace every maximal run of separators by a
single underscore. -/
def squashSeparators : List Char → List Char
  | [] => []
  | [c] => if wsOrDash c then ['_'] else [c]
  | a :: b :: rest =>
    if wsOrDash a then
      if wsOrDash b then squashSeparators (b :: rest)
      else '_' :: squashSeparators (b :: rest)
    else
      a :: squashSeparators (b :: rest)

/-- `normalizeKey`: camel-case split, separator squashing, lower-casing. -/
def normalizeKey (key : String) : String :=
  String.mk ((squashSeparators (camelSplit key.toList)).map Char.toLower)

/-- A JS word character (`\w` = letters, digits, underscore). -/
def isWordChar (c : Char) : Bool :=
  c.isAlphanum || c == '_'

/-- Does `w` occur in the scanned text with `\b` word boundaries on both
sides?  `prev` is the character just before the scan position.  Every
alternative of the sensitive-key pattern consists of word characters only,
so a boundary holds exactly when the neighbouring character is absent or a
non-word character. -/
def occursBounded (w : List Char) : Option Char → List Char → Bool
  | prev, s =>
    (s.take w.length == w &&
      (match prev with
       | none => true
       | some c => !isWordChar c) &&
      (match s.drop w.length with
       | [] => true
       | c :: _ => !isWordChar c)) ||
    (match s with
     | [] => false
     | c :: rest => occursBounded w (some c) rest)

/-- The alternatives of `SENSITIVE_KEY_PATTERN`, with the optional regex
groups expanded. -/
def sensitiveAlternatives : List String :=
  ["pass", "password", "secret", "token", "api_key", "authorization",
   "auth", "authentication", "credential", "credentials",
   "cookie", "set_cookie", "session", "csrf", "client_secret",
   "access_token", "id_token", "refresh_token"]

/-- `shouldRedactKey`: test the sensitive pattern against the normalized
key. -/
def shouldRedactKey (key : String) : Bool :=
  let n := (normalizeKey key).toList
  sensitiveAlternatives.any (fun w => occursBounded w.toList none n)

mutual

/-- The `redact` closure of `generateReport`: primitives pass through,
arrays map, objects keep their keys and replace the value of every
sensitive key by `"[REDACTED]"`, recursing into the others. -/
def redact : Json → Json
  | Json.str s => Json.str s
  | Json.num n => Json.num n
  | Json.jbool b => Json.jbool b
  | Json.jnull => Json.jnull
  | Json.arr elems => Json.arr (redactList elems)
  | Json.obj fields => Json.obj (redactFields fields)

/-- `v.map((x) => redact(x))` for arrays. -/
def redactList : List Json → List Json
  | [] => []
  | x :: xs => redact x :: redactList xs

/-- `Object.entries(v).map(([k, val]) => [k, shouldRedactKey(k) ? "[REDACTED]" : redact(val)])`. -/
def redactFields : List (String × Json) → List (String × Json)
  | [] => []
  | (k, v) :: fs =>
    (k, if shouldRedactKey k then Json.str "[REDACTED]" else redact v) ::
      redactFields fs

end

/-- One step of a path into a JSON value. -/
inductive PathStep where
  | field (key : String)
  | index (i : Nat)
  deriving DecidableEq, Repr

/-- Look a path up in a JSON value (object fields by first matching key,
array elements by index). -/
def getPath : Json → List PathStep → Option Json
  | v, [] => some v
  | Json.obj fields, PathStep.field k :: p =>
    match fields.find? (fun kv => kv.1 == k) with
    | some kv => getPath kv.2 p
    | none => none
  | Json.arr elems, PathStep.index i :: p =>
    match elems.get? i with
    | some x => getPath x p
    | none => none
  | _, _ => none

/-- No field step of the path carries a sensitive key. -/
def pathClean (p : List PathStep) : Bool :=
  p.all (fun st =>
    match st with
    | PathStep.field k => !shouldRedactKey k
    | PathStep.index _ => true)

/-- A JSON scalar (a non-container value). -/
def Json.isScalar : Json → Bool
  | Json.arr _ => false
  | Json.obj _ => false
  | _ => true

/-! ### C8 — Table-driven form filling (`formFiller.ts`,
`fillFormFromTable`) -/

/-- An apostrophe, written by code point to keep the source plain. -/
def apostrophe : String :=
  String.mk [Char.ofNat 39]

/-- The fill instruction issued for one row. -/
def mkFillInstruction (fieldName value : String) : String :=
  apostrophe ++ fieldName ++ apostrophe ++ "フィールドに「" ++ value ++
    "」と入力する"

/-- Row handling of `fillFormFromTable`: skip (`none`) when the row has
fewer than two keys or the value at the first key is falsy; otherwise the
field-name/value pair is taken from the first two columns by position. -/
def processTableRow (row : TableRow) : Option (String × String) :=
  if row.length < 2 then none
  else
    match row with
    | kv1 :: kv2 :: _ =>
      if kv1.2 == "" then none else some (kv1.2, kv2.2)
    | _ => none

/-- `fillFormFromTable`: one fill instruction per non-skipped row, in table
order; skipped rows only produce a warning and processing continues. -/
def fillFormFromTable : List TableRow → List String
  | [] => []
  | row :: rest =>
    match processTableRow row with
    | some fv => mkFillInstruction fv.1 fv.2 :: fillFormFromTable rest
    | none => fillFormFromTable rest

/-- The number of columns of a row holding a non-empty value (the quantity
the specification's skip rule speaks about). -/
def nonEmptyColumnCount (row : TableRow) : Nat :=
  (row.filter (fun kv => kv.2 != "")).length

/-! ## Theorems -/

/-- C9: `resetForNewScenario` empties the step-result list, nulls the
structured scenario, installs the new scenario text, leaves the run mode
(the only other field) at its prior value, and is idempotent. -/
theorem C9_resetForNewScenario_spec {Doc Res : Type}
    (ctx : ExecutionContext Doc Res) (t : String) :
    (ctx.resetForNewScenario t).stepResults = [] ∧
    (ctx.resetForNewScenario t).gherkinDocument = none ∧
    (ctx.resetForNewScenario t).originalScenario = t ∧
    (ctx.resetForNewScenario t).mode = ctx.mode ∧
    (ctx.resetForNewScenario t).resetForNewScenario t =
      ctx.resetForNewScenario t :=
  ⟨rfl, rfl, rfl, rfl, rfl⟩

/-- C1: the self-healing controller invokes the planner at most 3 times; a
success on attempt `i+1` returns that plan having made exactly `i`
healing-LLM calls; when all 3 attempts throw, exactly 2 healing-LLM calls
were made and the single fatal error message contains the original step
text and the last failure message. -/
theorem C1_self_healing_budget {P : Type} :
    (∀ (planner : Nat → String → Except String P)
        (healer : Nat → String → String) (orig : String) (p : P),
        planner 0 orig = Except.ok p →
        planWithSelfHealing planner healer orig = ⟨Except.ok p, 0, 1⟩) ∧
    (∀ (planner : Nat → String → Except String P)
        (healer : Nat → String → String) (orig : String) (e0 : String) (p : P),
        planner 0 orig = Except.error e0 →
        planner 1 (healer 0 e0) = Except.ok p →
        planWithSelfHealing planner healer orig = ⟨Except.ok p, 1, 2⟩) ∧
    (∀ (planner : Nat → String → Except String P)
        (healer : Nat → String → String) (orig e0 e1 : String) (p : P),
        planner 0 orig = Except.error e0 →
        planner 1 (healer 0 e0) = Except.error e1 →
        planner 2 (healer 1 e1) = Except.ok p →
        planWithSelfHealing planner healer orig = ⟨Except.ok p, 2, 3⟩) ∧
    (∀ (planner : Nat → String → Except String P)
        (healer : Nat → String → String) (orig e0 e1 e2 : String),
        planner 0 orig = Except.error e0 →
        planner 1 (healer 0 e0) = Except.error e1 →
        planner 2 (healer 1 e1) = Except.error e2 →
        planWithSelfHealing planner healer orig =
          ⟨Except.error (fatalHealMessage orig e2), 2, 3⟩ ∧
        (∃ a b, fatalHealMessage orig e2 = a ++ orig ++ b) ∧
        (∃ c d, fatalHealMessage orig e2 = c ++ e2 ++ d)) ∧
    (∀ (planner : Nat → String → Except String P)
        (healer : Nat → String → String) (orig : String),
        (planWithSelfHealing planner healer orig).plannerCalls ≤ 3) := by
  refine ⟨?_, ?_, ?_, ?_, ?_⟩
  · intro planner healer orig p h0
    simp [planWithSelfHealing, selfHealLoop, h0]
  · intro planner healer orig e0 p h0 h1
    simp [planWithSelfHealing, selfHealLoop, h0, h1]
  · intro planner healer orig e0 e1 p h0 h1 h2
    simp [planWithSelfHealing, selfHealLoop, h0, h1, h2]
  · intro planner healer orig e0 e1 e2 h0 h1 h2
    refine ⟨?_, ?_, ?_⟩
    · simp [planWithSelfHealing, selfHealLoop, h0, h1, h2]
    · exact ⟨"ステップ「",
        "」の計画立案は2回の自己修復を試みましたが、最終的に失敗しました。最後の失敗理由: " ++ e2,
        by rw [fatalHealMessage, String.append_assoc, String.append_assoc]⟩
    · exact ⟨"ステップ「" ++ orig ++
        "」の計画立案は2回の自己修復を試みましたが、最終的に失敗しました。最後の失敗理由: ",
        "", by rw [fatalHealMessage, String.append_empty, String.append_assoc]⟩
  · intro planner healer orig
    rcases h0 : planner 0 orig with e0 | p0
    · rcases h1 : planner 1 (healer 0 e0) with e1 | p1
      · rcases h2 : planner 2 (healer 1 e1) with e2 | p2
        · simp [planWithSelfHealing, selfHealLoop, h0, h1, h2]
        · simp [planWithSelfHealing, selfHealLoop, h0, h1, h2]
      · simp [planWithSelfHealing, selfHealLoop, h0, h1]
    · simp [planWithSelfHealing, selfHealLoop, h0]

/-- Witness for C1 at a concrete always-failing planner. -/
theorem C1_self_healing_budget_witness :
    planWithSelfHealing (P := Nat) (fun _ _ => Except.error "boom")
        (fun _ _ => "alt") "click login" =
      ⟨Except.error (fatalHealMessage "click login" "boom"), 2, 3⟩ ∧
    (∃ a b, fatalHealMessage "click login" "boom" = a ++ "click login" ++ b) ∧
    (∃ c d, fatalHealMessage "click login" "boom" = c ++ "boom" ++ d) :=
  (C1_self_healing_budget (P := Nat)).2.2.2.1
    (fun _ _ => Except.error "boom") (fun _ _ => "alt") "click login"
    "boom" "boom" "boom" rfl rfl rfl

/-- Two booleans equal in truth value are equal. -/
theorem bool_eq_of_iff {a b : Bool} (h : a = true ↔ b = true) : a = b := by
  cases a <;> cases b <;> simp_all

/-- One matching conjunct, as a proposition: the extracted row holds a
non-empty value at the expected key and the expected value is a substring
of it. -/
theorem entryMatches_iff (ar : TableRow) (kv : String × String) :
    entryMatches ar kv = true ↔
      ∃ v, lookupField ar kv.1 = some v ∧ v ≠ "" ∧ kv.2.toList <:+: v.toList := by
  cases h : lookupField ar kv.1 with
  | none => simp [entryMatches, h]
  | some v => simp [entryMatches, h, jsIncludes, bne_iff_ne]

/-- The table branch, as a proposition. -/
theorem verifyTableStep_iff (expected extractedData : List TableRow) :
    verifyTableStep expected extractedData = true ↔
      extractedData ≠ [] ∧
        ∀ er ∈ expected, ∃ ar ∈ extractedData, ∀ kv ∈ er,
          ∃ v, lookupField ar kv.1 = some v ∧ v ≠ "" ∧
            kv.2.toList <:+: v.toList := by
  unfold verifyTableStep
  cases hx : extractedData.isEmpty
  · simp only [Bool.false_eq_true, if_false]
    rw [List.all_eq_true]
    constructor
    · intro h
      refine ⟨by simpa [List.isEmpty_iff] using hx, ?_⟩
      intro er her
      have := h er her
      rw [rowFoundIn, List.any_eq_true] at this
      obtain ⟨ar, har, hall⟩ := this
      refine ⟨ar, har, ?_⟩
      intro kv hkv
      exact (entryMatches_iff ar kv).mp (List.all_eq_true.mp hall kv hkv)
    · intro ⟨_, h⟩ er her
      obtain ⟨ar, har, hall⟩ := h er her
      rw [rowFoundIn, List.any_eq_true]
      refine ⟨ar, har, List.all_eq_true.mpr ?_⟩
      intro kv hkv
      exact (entryMatches_iff ar kv).mpr (hall kv hkv)
  · simp [List.isEmpty_iff.mp hx]

/-- C2 counterexample: with expected row `{A: ""}` and extracted rows
`[{A: ""}]` the claimed equivalence fails — the substring condition of the
claim holds (the empty string is a substring of the empty string at key
`A`), yet the code rejects the row because the extracted value is falsy. -/
theorem C2_table_verification_counterexample :
    ¬ (verifyTableStep [[("A", "")]] [[("A", "")]] = true ↔
        specTableMatch [[("A", "")]] [[("A", "")]]) := by
  intro h
  have hs : specTableMatch [[("A", "")]] [[("A", "")]] := by
    refine ⟨by simp, ?_⟩
    intro er her
    refine ⟨[("A", "")], by simp, ?_⟩
    intro kv hkv
    simp only [List.mem_singleton] at her
    subst her
    simp only [List.mem_singleton] at hkv
    subst hkv
    exact ⟨"", by simp [lookupField], by simp⟩
  have := h.mpr hs
  simp [verifyTableStep, rowFoundIn, entryMatches, lookupField] at this

/-- C2 (amended): a table-driven verification step returns `true` iff the
extraction produced at least one row and every expected row has an
extracted row in which, for every expected column, the extracted value at
that key is present and non-empty and the expected value is a substring of
it (case-sensitive); the result is invariant under reordering of the
extracted rows; zero extracted rows yield `false`. -/
theorem C2_table_verification_amended (expected extractedData : List TableRow) :
    (verifyTableStep expected extractedData = true ↔
      extractedData ≠ [] ∧
        ∀ er ∈ expected, ∃ ar ∈ extractedData, ∀ kv ∈ er,
          ∃ v, lookupField ar kv.1 = some v ∧ v ≠ "" ∧
            kv.2.toList <:+: v.toList) ∧
    (∀ extracted2 : List TableRow, extractedData.Perm extracted2 →
      verifyTableStep expected extractedData =
        verifyTableStep expected extracted2) ∧
    verifyTableStep expected [] = false := by
  refine ⟨verifyTableStep_iff expected extractedData, ?_, by simp [verifyTableStep]⟩
  intro extracted2 hperm
  apply bool_eq_of_iff
  rw [verifyTableStep_iff, verifyTableStep_iff]
  constructor
  · intro ⟨hne, h⟩
    refine ⟨fun h2 => hne (by rw [h2] at hperm; exact hperm.eq_nil), ?_⟩
    intro er her
    obtain ⟨ar, har, hall⟩ := h er her
    exact ⟨ar, hperm.mem_iff.mp har, hall⟩
  · intro ⟨hne, h⟩
    refine ⟨fun h2 => hne (by rw [h2] at hperm; exact hperm.symm.eq_nil), ?_⟩
    intro er her
    obtain ⟨ar, har, hall⟩ := h er her
    exact ⟨ar, hperm.mem_iff.mpr har, hall⟩

/-- Witness for C2 (amended) at concrete tables, exercising the
permutation-invariance hypothesis. -/
theorem C2_table_verification_amended_witness :
    verifyTableStep [[("Name", "Hanako")]]
        [[("Name", "Tanaka Hanako")], [("Name", "B")]] =
      verifyTableStep [[("Name", "Hanako")]]
        [[("Name", "B")], [("Name", "Tanaka Hanako")]] :=
  (C2_table_verification_amended [[("Name", "Hanako")]]
      [[("Name", "Tanaka Hanako")], [("Name", "B")]]).2.1
    [[("Name", "B")], [("Name", "Tanaka Hanako")]] (by decide)

/-- C10: the row-matching conjunct demands a truthy extracted value — an
absent field, or a field extracted as the empty string, never satisfies an
expected column, even when the expected value is the empty string (a
substring of every string). -/
theorem C10_extracted_value_truthiness :
    (∀ (ar : TableRow) (key exp : String),
        lookupField ar key = none → entryMatches ar (key, exp) = false) ∧
    (∀ (ar : TableRow) (key exp : String),
        lookupField ar key = some "" → entryMatches ar (key, exp) = false) ∧
    rowFoundIn [[("Name", "")]] [("Name", "")] = false := by
  refine ⟨?_, ?_, by decide⟩
  · intro ar key exp h
    simp [entryMatches, h]
  · intro ar key exp h
    simp [entryMatches, h]

/-- Witness for C10: an absent field and an empty extracted field both
fail to match, even against an empty expected value. -/
theorem C10_extracted_value_truthiness_witness :
    entryMatches [("other", "x")] ("Name", "") = false ∧
    entryMatches [("Name", "")] ("Name", "") = false :=
  ⟨C10_extracted_value_truthiness.1 [("other", "x")] "Name" "" (by decide),
   C10_extracted_value_truthiness.2.1 [("Name", "")] "Name" "" (by decide)⟩

/-- `find?` returns the head of the filtered list. -/
theorem find?_eq_head?_filter {α : Type} (p : α → Bool) (l : List α) :
    l.find? p = (l.filter p).head? := by
  induction l with
  | nil => rfl
  | cons a l ih =>
    cases h : p a with
    | false => rw [List.find?_cons, List.filter_cons, h]; exact ih
    | true => rw [List.find?_cons, List.filter_cons, h]; rfl

/-- C3: with a single candidate, or an unknown intent, the first candidate
is returned unfiltered; with several candidates and a known intent, the
candidates are filtered by method-name compatibility — an empty filter
result raises the intent-mismatch error, otherwise the first surviving
candidate (in the original order, i.e. `find?`) is returned; zero
candidates raise the element-not-found error. -/
theorem C3_candidate_intent_filtering :
    (∀ (instr : String) (intent : ActionIntent) (c : ObserveResult),
        selectCandidate instr intent [c] = Except.ok c) ∧
    (∀ (instr : String) (c : ObserveResult) (rest : List ObserveResult),
        selectCandidate instr ActionIntent.unknown (c :: rest) = Except.ok c) ∧
    (∀ (instr : String) (intent : ActionIntent) (observed : List ObserveResult),
        intent ≠ ActionIntent.unknown → 1 < observed.length →
        observed.filter (observeFilterPred intent) = [] →
        selectCandidate instr intent observed =
          Except.error (intentMismatchMessage intent)) ∧
    (∀ (instr : String) (intent : ActionIntent) (observed : List ObserveResult)
        (c : ObserveResult),
        intent ≠ ActionIntent.unknown → 1 < observed.length →
        observed.find? (observeFilterPred intent) = some c →
        selectCandidate instr intent observed = Except.ok c) ∧
    (∀ (instr : String) (intent : ActionIntent),
        selectCandidate instr intent [] =
          Except.error (elementNotFoundMessage instr)) := by
  refine ⟨?_, ?_, ?_, ?_, ?_⟩
  · intro instr intent c
    simp [selectCandidate]
  · intro instr c rest
    simp [selectCandidate]
  · intro instr intent observed hintent hlen hfilter
    match observed with
    | [] => simp at hlen
    | first :: rest =>
      rw [selectCandidate]
      rw [if_pos (by simp [bne_iff_ne, hintent]; simpa using hlen)]
      rw [hfilter]
  · intro instr intent observed c hintent hlen hfind
    match observed with
    | [] => simp at hlen
    | first :: rest =>
      rw [selectCandidate]
      rw [if_pos (by simp [bne_iff_ne, hintent]; simpa using hlen)]
      rw [find?_eq_head?_filter] at hfind
      match hf : (first :: rest).filter (observeFilterPred intent) with
      | [] => rw [hf] at hfind; simp at hfind
      | f :: t => rw [hf] at hfind; simp at hfind; rw [hfind]
  · intro instr intent
    rfl

/-- Witness for C3: a known intent with two candidates keeps the first
method-compatible one (case-insensitively), and errors when none matches. -/
theorem C3_candidate_intent_filtering_witness :
    selectCandidate "find the button" ActionIntent.click
        [⟨some "fill", none, none⟩, ⟨some "Click", none, none⟩] =
      Except.ok ⟨some "Click", none, none⟩ ∧
    selectCandidate "find the button" ActionIntent.click
        [⟨some "fill", none, none⟩, ⟨some "type", none, none⟩] =
      Except.error (intentMismatchMessage ActionIntent.click) :=
  ⟨C3_candidate_intent_filtering.2.2.2.1 "find the button" ActionIntent.click
      [⟨some "fill", none, none⟩, ⟨some "Click", none, none⟩]
      ⟨some "Click", none, none⟩ (by decide) (by decide) (by decide),
   C3_candidate_intent_filtering.2.2.1 "find the button" ActionIntent.click
      [⟨some "fill", none, none⟩, ⟨some "type", none, none⟩]
      (by decide) (by decide) (by decide)⟩

/-- C4: element-state verification is a total boolean — with zero located
candidates it returns `true` exactly for the `not_exists` check and `false`
for every other check kind, and when every state probe on a located
candidate throws, every check kind yields `false` instead of propagating
the exception. -/
theorem C4_element_state_total :
    (∀ (check : CheckKind) (ev : Option String) (probe : LocatorProbe),
        verifyElementState check ev [] probe = true ↔
          check = CheckKind.not_exists) ∧
    (∀ (check : CheckKind) (ev : Option String) (target : ObserveResult)
        (rest : List ObserveResult) (e1 e2 e3 e4 e5 e6 e7 : String),
        verifyElementState check ev (target :: rest)
          ⟨Except.error e1, Except.error e2, Except.error e3, Except.error e4,
           Except.error e5, Except.error e6, Except.error e7⟩ = false) := by
  constructor
  · intro check ev probe
    simp [verifyElementState]
  · intro check ev target rest e1 e2 e3 e4 e5 e6 e7
    cases hsel : resolveSelector target with
    | none => simp [verifyElementState, hsel]
    | some s => cases check <;> simp [verifyElementState, hsel, runStateCheck]

/-- C5: a Given step whose text contains an http(s) URL literal navigates
to the first such literal exactly once and fails with a
precondition-verification error (whose message embeds the URL literal)
exactly when the resulting location is `about:blank` or does not start
with the literal; otherwise it completes with no action plan.  A Given
step without a URL literal delegates to the When-planning path without
navigating. -/
theorem C5_precondition_url_gate :
    (∀ (text : String) (nav : String → String) (u : String),
        findFirstUrl text.toList = some u →
        ((planGivenStep text nav).1 = GivenOutcome.navigated ↔
          nav u ≠ "about:blank" ∧ jsStartsWith (nav u) u = true) ∧
        ((nav u = "about:blank" ∨ jsStartsWith (nav u) u = false) →
          (planGivenStep text nav).1 =
            GivenOutcome.failed (preconditionFailedMessage u (nav u)) ∧
          ∃ a b, preconditionFailedMessage u (nav u) = a ++ u ++ b) ∧
        (planGivenStep text nav).2 = 1) ∧
    (∀ (text : String) (nav : String → String),
        findFirstUrl text.toList = none →
        planGivenStep text nav = (GivenOutcome.delegated, 0)) := by
  constructor
  · intro text nav u h
    cases hb : (nav u == "about:blank" || !jsStartsWith (nav u) u) with
    | false =>
      have hres : planGivenStep text nav = (GivenOutcome.navigated, 1) := by
        rw [planGivenStep, h]
        simp only [hb, Bool.false_eq_true, if_false]
      rw [Bool.or_eq_false_iff] at hb
      obtain ⟨hb1, hb2⟩ := hb
      refine ⟨?_, ?_, by rw [hres]⟩
      · simp only [hres]
        refine ⟨fun _ => ⟨by simpa using hb1, by simpa using hb2⟩, fun _ => trivial⟩
      · intro hfail
        exfalso
        rcases hfail with hfail | hfail
        · exact (by simpa using hb1 : nav u ≠ "about:blank") hfail
        · rw [(by simpa using hb2 : jsStartsWith (nav u) u = true)] at hfail
          simp at hfail
    | true =>
      have hres : planGivenStep text nav =
          (GivenOutcome.failed (preconditionFailedMessage u (nav u)), 1) := by
        rw [planGivenStep, h]
        simp only [hb, if_true]
      refine ⟨?_, ?_, by rw [hres]⟩
      · rw [hres]
        constructor
        · intro hc
          exact absurd hc (by simp)
        · intro ⟨h1, h2⟩
          rw [Bool.or_eq_true] at hb
          rcases hb with hb | hb
          · exact absurd (by simpa using hb) h1
          · rw [h2] at hb
            simp at hb
      · intro _
        refine ⟨by rw [hres], "前提条件の検証に失敗: URLへの遷移に失敗しました。\n  期待値 (前方一致): ",
          "\n  実際値: " ++ nav u, ?_⟩
        rw [preconditionFailedMessage, String.append_assoc, String.append_assoc]
  · intro text nav h
    rw [planGivenStep, h]

/-- Witness for C5: a concrete precondition step text with an embedded URL,
against a navigation landing on a longer URL (success) — exercised through
the success/failure characterization — and a blank landing (failure). -/
theorem C5_precondition_url_gate_witness :
    ((planGivenStep "open https://example.com/ now"
        (fun _ => "https://example.com/home")).1 = GivenOutcome.navigated ↔
      ("https://example.com/home" : String) ≠ "about:blank" ∧
        jsStartsWith "https://example.com/home" "https://example.com/" = true) ∧
    planGivenStep "no url here" (fun _ => "x") =
      (GivenOutcome.delegated, 0) :=
  ⟨(C5_precondition_url_gate.1 "open https://example.com/ now"
      (fun _ => "https://example.com/home") "https://example.com/"
      (by decide)).1,
   C5_precondition_url_gate.2 "no url here" (fun _ => "x") (by decide)⟩

/-- C6: the polymorphic extraction result is normalized with a fixed
priority — a string `extraction` field, else a string `page_text` field,
else the empty string — and the operator dispatch is substring containment
for `toContain`, its negation for `notToContain`, and string equality for
`toEqual`; in particular the specification's concrete example passes. -/
theorem C6_text_assertion_normalization :
    (∀ (s : String) (p : Option JsValue),
        getSafeTextFromResult ⟨some (JsValue.str s), p⟩ = s) ∧
    (∀ (e : Option JsValue) (t : String),
        (∀ s, e ≠ some (JsValue.str s)) →
        getSafeTextFromResult ⟨e, some (JsValue.str t)⟩ = t) ∧
    (∀ (e p : Option JsValue),
        (∀ s, e ≠ some (JsValue.str s)) →
        (∀ s, p ≠ some (JsValue.str s)) →
        getSafeTextFromResult ⟨e, p⟩ = "") ∧
    (∀ (exp : String) (r : RawExtractResult),
        (evalTextAssertion TextOperator.toContain exp r = true ↔
          exp.toList <:+: (getSafeTextFromResult r).toList) ∧
        (evalTextAssertion TextOperator.notToContain exp r = true ↔
          ¬ exp.toList <:+: (getSafeTextFromResult r).toList) ∧
        (evalTextAssertion TextOperator.toEqual exp r = true ↔
          getSafeTextFromResult r = exp)) ∧
    evalTextAssertion TextOperator.toContain "Welcome"
      ⟨some (JsValue.str "Welcome back, Alice! Welcome."), none⟩ = true := by
  refine ⟨fun s p => rfl, ?_, ?_, ?_, by decide⟩
  · intro e t he
    match e with
    | none => rfl
    | some JsValue.nonString => rfl
    | some (JsValue.str s) => exact absurd rfl (he s)
  · intro e p he hp
    match e, p with
    | none, none => rfl
    | none, some JsValue.nonString => rfl
    | some JsValue.nonString, none => rfl
    | some JsValue.nonString, some JsValue.nonString => rfl
    | some (JsValue.str s), _ => exact absurd rfl (he s)
    | none, some (JsValue.str s) => exact absurd rfl (hp s)
    | some JsValue.nonString, some (JsValue.str s) => exact absurd rfl (hp s)
  · intro exp r
    refine ⟨?_, ?_, ?_⟩
    · simp [evalTextAssertion, jsIncludes]
    · simp [evalTextAssertion, jsIncludes]
    · simp [evalTextAssertion]

/-- Witness for C6: a non-string `extraction` field falls back to
`page_text`. -/
theorem C6_text_assertion_normalization_witness :
    getSafeTextFromResult
      ⟨some JsValue.nonString, some (JsValue.str "page text")⟩ = "page text" :=
  C6_text_assertion_normalization.2.1 (some JsValue.nonString) "page text"
    (fun s h => by simp at h)

/-- `redactFields` keeps keys and order: `find?` on the redacted fields is
the mapped `find?` on the originals. -/
theorem redactFields_find? (fs : List (String × Json)) (k : String) :
    (redactFields fs).find? (fun kv => kv.1 == k) =
      (fs.find? (fun kv => kv.1 == k)).map
        (fun kv =>
          (kv.1, if shouldRedactKey kv.1 then Json.str "[REDACTED]"
                 else redact kv.2)) := by
  induction fs with
  | nil => rfl
  | cons kv fs ih =>
    obtain ⟨k0, v0⟩ := kv
    rw [redactFields]
    cases h : (k0 == k) with
    | false => simp only [List.find?_cons, h]; exact ih
    | true => simp only [List.find?_cons, h]; rfl

/-- `redactList` maps `redact` over the elements. -/
theorem redactList_get? (xs : List Json) (i : Nat) :
    (redactList xs).get? i = (xs.get? i).map redact := by
  induction xs generalizing i with
  | nil => simp [redactList]
  | cons x xs ih =>
    cases i with
    | zero => simp [redactList]
    | succ j => simpa [redactList] using ih j

/-- A field key found by `find?` satisfies the search key. -/
theorem find?_key_eq {fs : List (String × Json)} {k : String}
    {kv : String × Json} (h : fs.find? (fun kv => kv.1 == k) = some kv) :
    kv.1 = k := by
  have := List.find?_some h
  simpa using this

/-- Along a path whose field keys are all non-sensitive, a terminal
sensitive field is redacted to the literal `"[REDACTED]"`. -/
theorem getPath_redact_sensitive (p : List PathStep) :
    ∀ (v : Json) (k : String) (w : Json),
      pathClean p = true → shouldRedactKey k = true →
      getPath v (p ++ [PathStep.field k]) = some w →
      getPath (redact v) (p ++ [PathStep.field k]) =
        some (Json.str "[REDACTED]") := by
  induction p with
  | nil =>
    intro v k w _ hk hget
    simp only [List.nil_append] at hget ⊢
    match v with
    | Json.str s => simp [getPath] at hget
    | Json.num n => simp [getPath] at hget
    | Json.jbool b => simp [getPath] at hget
    | Json.jnull => simp [getPath] at hget
    | Json.arr xs => simp [getPath] at hget
    | Json.obj fs =>
      rw [getPath] at hget
      cases hf : fs.find? (fun kv => kv.1 == k) with
      | none => rw [hf] at hget; simp at hget
      | some kv =>
        rw [redact, getPath, redactFields_find?, hf]
        simp only [Option.map_some']
        rw [find?_key_eq hf, if_pos hk]
        rfl
  | cons st p ih =>
    intro v k w hclean hk hget
    cases st with
    | field k0 =>
      have hclean0 : shouldRedactKey k0 = false := by
        have := (List.all_eq_true.mp hclean) (PathStep.field k0) (by simp)
        simpa using this
      have hcleanp : pathClean p = true := by
        rw [pathClean, List.all_eq_true]
        intro st hst
        exact (List.all_eq_true.mp hclean) st (by simp [hst])
      match v with
      | Json.str s => simp [getPath] at hget
      | Json.num n => simp [getPath] at hget
      | Json.jbool b => simp [getPath] at hget
      | Json.jnull => simp [getPath] at hget
      | Json.arr xs => simp [getPath] at hget
      | Json.obj fs =>
        simp only [List.cons_append] at hget ⊢
        rw [getPath] at hget
        cases hf : fs.find? (fun kv => kv.1 == k0) with
        | none => rw [hf] at hget; simp at hget
        | some kv =>
          rw [hf] at hget
          rw [redact, getPath, redactFields_find?, hf]
          simp only [Option.map_some']
          rw [find?_key_eq hf, if_neg (by simp [hclean0])]
          exact ih kv.2 k w hcleanp hk hget
    | index i =>
      match v with
      | Json.str s => simp [getPath] at hget
      | Json.num n => simp [getPath] at hget
      | Json.jbool b => simp [getPath] at hget
      | Json.jnull => simp [getPath] at hget
      | Json.obj fs => simp [getPath] at hget
      | Json.arr xs =>
        simp only [List.cons_append] at hget ⊢
        rw [getPath] at hget
        cases hx : xs.get? i with
        | none => rw [hx] at hget; simp at hget
        | some x =>
          rw [hx] at hget
          rw [redact, getPath, redactList_get?, hx]
          simp only [Option.map_some']
          exact ih x k w hclean hk hget

/-- Along a path whose field keys are all non-sensitive, a scalar value is
preserved unchanged by redaction. -/
theorem getPath_redact_clean (p : List PathStep) :
    ∀ (v w : Json), pathClean p = true → Json.isScalar w = true →
      getPath v p = some w → getPath (redact v) p = some w := by
  induction p with
  | nil =>
    intro v w _ hscalar hget
    simp only [getPath] at hget ⊢
    obtain rfl : v = w := by simpa using hget
    cases v with
    | str s => rfl
    | num n => rfl
    | jbool b => rfl
    | jnull => rfl
    | arr xs => simp [Json.isScalar] at hscalar
    | obj fs => simp [Json.isScalar] at hscalar
  | cons st p ih =>
    intro v w hclean hscalar hget
    cases st with
    | field k0 =>
      have hclean0 : shouldRedactKey k0 = false := by
        have := (List.all_eq_true.mp hclean) (PathStep.field k0) (by simp)
        simpa using this
      have hcleanp : pathClean p = true := by
        rw [pathClean, List.all_eq_true]
        intro st hst
        exact (List.all_eq_true.mp hclean) st (by simp [hst])
      match v with
      | Json.str s => simp [getPath] at hget
      | Json.num n => simp [getPath] at hget
      | Json.jbool b => simp [getPath] at hget
      | Json.jnull => simp [getPath] at hget
      | Json.arr xs => simp [getPath] at hget
      | Json.obj fs =>
        rw [getPath] at hget
        cases hf : fs.find? (fun kv => kv.1 == k0) with
        | none => rw [hf] at hget; simp at hget
        | some kv =>
          rw [hf] at hget
          rw [redact, getPath, redactFields_find?, hf]
          simp only [Option.map_some']
          rw [find?_key_eq hf, if_neg (by simp [hclean0])]
          exact ih kv.2 w hcleanp hscalar hget
    | index i =>
      match v with
      | Json.str s => simp [getPath] at hget
      | Json.num n => simp [getPath] at hget
      | Json.jbool b => simp [getPath] at hget
      | Json.jnull => simp [getPath] at hget
      | Json.obj fs => simp [getPath] at hget
      | Json.arr xs =>
        rw [getPath] at hget
        cases hx : xs.get? i with
        | none => rw [hx] at hget; simp at hget
        | some x =>
          rw [hx] at hget
          rw [redact, getPath, redactList_get?, hx]
          simp only [Option.map_some']
          exact ih x w hclean hscalar hget

/-- C7: in a persisted command-trace record, at any nesting depth
(through objects and arrays), the value of every field whose key matches
the credential-like pattern (case-insensitively, after key normalization)
becomes the literal `"[REDACTED]"`, and every value reached only through
non-matching keys is kept unchanged. -/
theorem C7_command_trace_redaction :
    (∀ (record : Json) (p : List PathStep) (k : String) (w : Json),
        pathClean p = true → shouldRedactKey k = true →
        getPath record (p ++ [PathStep.field k]) = some w →
        getPath (redact record) (p ++ [PathStep.field k]) =
          some (Json.str "[REDACTED]")) ∧
    (∀ (record : Json) (p : List PathStep) (w : Json),
        pathClean p = true → Json.isScalar w = true →
        getPath record p = some w →
        getPath (redact record) p = some w) :=
  ⟨fun record p k w hc hk hg => getPath_redact_sensitive p record k w hc hk hg,
   fun record p w hc hs hg => getPath_redact_clean p record w hc hs hg⟩

/-- Witness for C7 on a concrete trace record: a nested `Set-Cookie` field
is replaced while the sibling `method` field survives. -/
theorem C7_command_trace_redaction_witness :
    getPath
        (redact (Json.obj [("method", Json.str "fill"),
          ("password", Json.str "hunter2"),
          ("headers", Json.obj [("Set-Cookie", Json.str "sid=1"),
            ("host", Json.str "example.com")]),
          ("args", Json.arr [Json.obj [("apiKey", Json.str "k")]])]))
        [PathStep.field "headers", PathStep.field "Set-Cookie"] =
      some (Json.str "[REDACTED]") ∧
    getPath
        (redact (Json.obj [("method", Json.str "fill"),
          ("password", Json.str "hunter2"),
          ("headers", Json.obj [("Set-Cookie", Json.str "sid=1"),
            ("host", Json.str "example.com")]),
          ("args", Json.arr [Json.obj [("apiKey", Json.str "k")]])]))
        [PathStep.field "method"] =
      some (Json.str "fill") :=
  ⟨C7_command_trace_redaction.1
      (Json.obj [("method", Json.str "fill"),
        ("password", Json.str "hunter2"),
        ("headers", Json.obj [("Set-Cookie", Json.str "sid=1"),
          ("host", Json.str "example.com")]),
        ("args", Json.arr [Json.obj [("apiKey", Json.str "k")]])])
      [PathStep.field "headers"] "Set-Cookie" (Json.str "sid=1")
      (by decide) (by decide) (by rfl),
   C7_command_trace_redaction.2
      (Json.obj [("method", Json.str "fill"),
        ("password", Json.str "hunter2"),
        ("headers", Json.obj [("Set-Cookie", Json.str "sid=1"),
          ("host", Json.str "example.com")]),
        ("args", Json.arr [Json.obj [("apiKey", Json.str "k")]])])
      [PathStep.field "method"] (Json.str "fill")
      (by decide) (by decide) (by rfl)⟩

/-- C8 counterexample: the row `{項目: "メール", 値: ""}` has fewer than
two non-empty columns, yet it is not skipped — a fill instruction carrying
the empty value is issued for it. -/
theorem C8_form_filling_counterexample :
    nonEmptyColumnCount [("項目", "メール"), ("値", "")] < 2 ∧
    fillFormFromTable [[("項目", "メール"), ("値", "")]] =
      [mkFillInstruction "メール" ""] := by
  exact ⟨by decide, rfl⟩

/-- C8 (amended): a table row is skipped (with a warning, never a failure)
exactly when it has fewer than two columns or its first column holds an
empty value; every other row — including one whose second column is empty
— yields exactly one fill instruction whose field name and value are the
values of the row's first two columns by position; skipped rows contribute
nothing and processing continues over the remaining rows. -/
theorem C8_form_filling_amended :
    (∀ row : TableRow, processTableRow row = none ↔
        (row.length < 2 ∨ ∃ k rest, row = (k, "") :: rest)) ∧
    (∀ (k1 v1 k2 v2 : String) (rest : TableRow),
        v1 ≠ "" →
        processTableRow ((k1, v1) :: (k2, v2) :: rest) = some (v1, v2)) ∧
    (∀ table : List TableRow,
        fillFormFromTable table =
          table.filterMap (fun row => (processTableRow row).map
            (fun fv => mkFillInstruction fv.1 fv.2))) := by
  refine ⟨?_, ?_, ?_⟩
  · intro row
    match row with
    | [] => simp [processTableRow]
    | [kv] => simp [processTableRow]
    | (k1, v1) :: (k2, v2) :: rest =>
      by_cases h : v1 = ""
      · subst h
        simp [processTableRow]
      · constructor
        · intro hnone
          simp [processTableRow, h] at hnone
        · intro hcases
          rcases hcases with hlen | ⟨k, rest2, heq⟩
          · simp at hlen
            omega
          · exfalso
            apply h
            have hh := congrArg List.head? heq
            simp [Prod.ext_iff] at hh
            exact hh.2
  · intro k1 v1 k2 v2 rest h
    simp [processTableRow, h]
  · intro table
    induction table with
    | nil => rfl
    | cons row rest ih =>
      cases h : processTableRow row with
      | none => simp [fillFormFromTable, List.filterMap_cons, h, ih]
      | some fv => simp [fillFormFromTable, List.filterMap_cons, h, ih]

/-- Witness for C8 (amended): a well-formed two-column row with arbitrary
header labels issues one positional fill instruction. -/
theorem C8_form_filling_amended_witness :
    processTableRow [("Field", "名前"), ("Data", "田中")] =
      some ("名前", "田中") :=
  C8_form_filling_amended.2.1 "Field" "名前" "Data" "田中" [] (by decide)
